import Mathlib

/-!
Verification development for the `encfs-afero` repository: a transparent
encryption layer over a plain file tree.  Go byte slices are modelled as
`List Nat` (each entry a byte value), Go strings as `List Char`, and the
external collaborators (the AES block cipher from `crypto/aes`, the JSON
codec from `encoding/json`, the base64 decoder and the AEAD from the
standard library) as function parameters, since they are not part of the
repository's own code.  All repository functions are translated directly
from the source.
-/

/-- Decidable equality for `Except`, so that concrete runs of the
modelled operations can be checked by `decide`. -/
instance {ε α : Type} [DecidableEq ε] [DecidableEq α] : DecidableEq (Except ε α) := fun x y =>
  match x, y with
  | .error a, .error b =>
      if h : a = b then isTrue (by rw [h])
      else isFalse (fun hh => h (Except.error.inj hh))
  | .ok a, .ok b =>
      if h : a = b then isTrue (by rw [h])
      else isFalse (fun hh => h (Except.ok.inj hh))
  | .error _, .ok _ => isFalse (fun hh => Except.noConfusion hh)
  | .ok _, .error _ => isFalse (fun hh => Except.noConfusion hh)

/-- Byte-wise exclusive or, modelling the Go loops
`for i { p[i] = p[i] ^ encryptedBytes[i] }` over a buffer `p` and a
keystream `k` of at least the same length. -/
def xorBytes (p k : List Nat) : List Nat :=
  List.zipWith (fun a b => a ^^^ b) p k

/-- Model of `binary.BigEndian.Uint64`: big-endian value of an 8-byte slice.
Each entry is reduced mod 256 to model Go's `uint8` cells. -/
def toUint64BE (l : List Nat) : Nat :=
  l.foldl (fun a b => a * 256 + b % 256) 0

/-- Model of `binary.BigEndian.PutUint64`: 8-byte big-endian encoding of a `uint64`. -/
def putUint64BE (n : Nat) : List Nat :=
  (List.range 8).map (fun i => n / 2 ^ (8 * (7 - i)) % 256)

/-- Translation of `nonceAdd` (enc_file.go).  The Go source reads the two
64-bit big-endian halves `n1`, `n2` of the 16-byte nonce, computes
`leftToMax := math.MaxUint64 - n2` and, when `leftToMax <= incrementValue`,
sets `incrementValue -= leftToMax + 1`, `n2 = incrementValue`, `n1 += 1`
(all in wrapping `uint64` arithmetic), otherwise `n2 += incrementValue`;
the result is the big-endian concatenation of the two halves. -/
def nonceAdd (nonce : List Nat) (incrementValue : Nat) : List Nat :=
  let inc := incrementValue % 2 ^ 64
  let n1 := toUint64BE (nonce.take 8)
  let n2 := toUint64BE ((nonce.drop 8).take 8)
  let leftToMax := (2 ^ 64 - 1) - n2
  let pair :=
    if leftToMax ≤ inc then
      ((n1 + 1) % 2 ^ 64, (inc + 2 ^ 64 - (leftToMax + 1) % 2 ^ 64) % 2 ^ 64)
    else
      (n1, (n2 + inc) % 2 ^ 64)
  putUint64BE pair.1 ++ putUint64BE pair.2

/-- The block loop of `generateCtrEncryptBytes`:
`for i := 0; i < blocksCount; i++ { cipher.Encrypt(out[i*16:(i+1)*16], nonceAdd(iv, i+blockOffset)) }`,
with `enc` the block cipher obtained from `aes.NewCipher`.
`ctrBlocks enc iv blockOffset n` is the concatenation of the first `n`
encrypted counter blocks. -/
def ctrBlocks (enc : List Nat → List Nat) (iv : List Nat) (blockOffset : Nat) : Nat → List Nat
  | 0 => []
  | n + 1 => ctrBlocks enc iv blockOffset n ++ enc (nonceAdd iv (n + blockOffset))

/-- Translation of `generateCtrEncryptBytes` (enc_file.go).  `newCipher`
models `aes.NewCipher`: it yields the AES block encryption function for a
key of valid length and fails otherwise.  Offsets and lengths are the
non-negative `int64` values of the source. -/
def generateCtrEncryptBytes (newCipher : List Nat → Option (List Nat → List Nat))
    (key iv : List Nat) (offset len : Nat) : Option (List Nat) :=
  let endOffset := offset + len
  let blockOffset := offset / 16
  let encryptStartOffset := blockOffset * 16
  let encryptEndOffset :=
    (endOffset / 16) * 16 + (if endOffset % 16 > 0 then 16 else 0)
  let blocksCount := (encryptEndOffset - encryptStartOffset) / 16
  match newCipher key with
  | none => none
  | some enc =>
      let encryptBytes := ctrBlocks enc iv blockOffset blocksCount
      some ((encryptBytes.drop (offset - encryptStartOffset)).take len)

/-- The constant `EncFileExt = ".__encfile"`, the sidecar metadata suffix. -/
def EncFileExt : List Char := ['.', '_', '_', 'e', 'n', 'c', 'f', 'i', 'l', 'e']

/-- The `EncFileMeta` record: the sidecar metadata `{name, iv}`. -/
structure EncFileMeta where
  Name : List Char
  Iv : List Nat
  deriving DecidableEq, Repr

/-- A node of the backend file tree: a directory or a regular file with
its byte content. -/
inductive FsNode where
  | dir : FsNode
  | file : List Nat → FsNode
  deriving DecidableEq, Repr

/-- The backend file tree seen by the metadata store: an association list
from path to node (first binding wins). -/
abbrev FsState := List (List Char × FsNode)

/-- Path lookup in the backend tree (`os.Stat` / `os.Open` success and
target). -/
def fsLookup : FsState → List Char → Option FsNode
  | [], _ => none
  | (k, v) :: rest, n => if k = n then some v else fsLookup rest n

/-- Model of `os.Create` followed by a full write: (re)bind `name` to a regular
file holding `content`, truncating any previous binding. -/
def fsInsert (fs : FsState) (name : List Char) (content : List Nat) : FsState :=
  (name, FsNode.file content) :: fs

/-- Translation of `openEncFileMeta` (enc_file.go).  `unmarshal` models
`json.Unmarshal` of `encoding/json`.  A missing sidecar yields
`.ok none` (`os.IsNotExist`), an unreadable or undecodable sidecar is an
error. -/
def openEncFileMeta (unmarshal : List Nat → Option EncFileMeta)
    (fs : FsState) (name : List Char) : Except Unit (Option EncFileMeta) :=
  match fsLookup fs (name ++ EncFileExt) with
  | none => .ok none
  | some FsNode.dir => .error ()
  | some (FsNode.file content) =>
      match unmarshal content with
      | none => .error ()
      | some m => .ok (some m)

/-- Translation of `openOrNewEncFileMeta` (enc_file.go).  `marshal` models
`json.Marshal`, `randIv` the 16 bytes delivered by `rand.Read`; sidecar
creation and writing are modelled on their success path.  Note the source
guard is `if err == nil && oldEncFileMeta != nil`: on any `openEncFileMeta`
error the function falls through and regenerates the sidecar. -/
def openOrNewEncFileMeta (marshal : EncFileMeta → List Nat)
    (unmarshal : List Nat → Option EncFileMeta) (randIv : List Nat)
    (fs : FsState) (name : List Char) : Except Unit (EncFileMeta × FsState) :=
  match openEncFileMeta unmarshal fs name with
  | .ok (some oldEncFileMeta) => .ok (oldEncFileMeta, fs)
  | _ =>
      let encFileMeta : EncFileMeta := ⟨name, randIv⟩
      .ok (encFileMeta, fsInsert fs (name ++ EncFileExt) (marshal encFileMeta))

/-- Errors surfaced by the encrypted file handle and its backend file.
`fileClosed` is `afero.ErrFileClosed` (the handle-layer closed-handle
error); `backendClosed` is the distinct error an `os.File` operation
returns once the descriptor itself has been closed. -/
inductive FErr where
  | fileClosed
  | eisdir
  | backendClosed
  | eof
  | cipherErr
  | invalidSeek
  deriving DecidableEq, Repr

/-- The backend `os.File`: a closed flag, the file position and the byte
content. -/
structure BackendFile where
  bClosed : Bool
  pos : Nat
  content : List Nat
  deriving DecidableEq, Repr

/-- The `EncFile` handle.  `key` flattens
`f.encFs != nil && f.encFs.key != nil` to the master key bytes when
present. -/
structure EncFile where
  isDir : Bool
  closed : Bool
  encFileMeta : Option EncFileMeta
  key : Option (List Nat)
  filePos : Nat
  file : BackendFile
  deriving DecidableEq, Repr

/-- Translation of `NewEncFile` (enc_file.go).  The opened handle sits at
`name` in the tree, so `file.Stat()` and `os.Stat(name)` are both read
from `fsLookup fs name`; `encKey` is `encFs.key.key` when the filesystem
carries a master key, and `bf` the backend descriptor of the opened
file. -/
def NewEncFile (marshal : EncFileMeta → List Nat)
    (unmarshal : List Nat → Option EncFileMeta) (randIv : List Nat)
    (encKey : Option (List Nat)) (fs : FsState) (name : List Char)
    (bf : BackendFile) (isCreate : Bool) : Except Unit (EncFile × FsState) :=
  match fsLookup fs name with
  | none => .error ()
  | some node =>
      let isDir := node = FsNode.dir
      let isCreate' :=
        match node with
        | FsNode.file content => if content = [] then true else isCreate
        | FsNode.dir => isCreate
      let metaAndFs : Except Unit (Option EncFileMeta × FsState) :=
        if isDir then .ok (none, fs)
        else if isCreate' then
          match openOrNewEncFileMeta marshal unmarshal randIv fs name with
          | .error e => .error e
          | .ok (m, fs') => .ok (some m, fs')
        else
          match openEncFileMeta unmarshal fs name with
          | .error e => .error e
          | .ok om => .ok (om, fs)
      match metaAndFs with
      | .error e => .error e
      | .ok (om, fs') =>
          .ok (⟨isDir, false, om, encKey, 0, bf⟩, fs')

/-- A concrete executable instance of the metadata codec pair, standing in
for `encoding/json` in witnesses and counterexamples: the name length,
then the name's character codes, then the IV bytes.  Inputs that do not
carry a well-formed record (for instance a length byte larger than the
remainder) fail to decode, as `json.Unmarshal` fails on malformed
content. -/
def metaEncode (m : EncFileMeta) : List Nat :=
  m.Name.length :: (m.Name.map Char.toNat ++ m.Iv)

/-- Concrete metadata decoder matching `metaEncode`; see there. -/
def metaDecode (bs : List Nat) : Option EncFileMeta :=
  match bs with
  | [] => none
  | n :: rest =>
      if n ≤ rest.length then
        some ⟨(rest.take n).map Char.ofNat, rest.drop n⟩
      else
        none

/-- The caller-visible byte buffers.  Go slices passed to `Read`/`Write`
are mutable; each heap cell is one buffer, addressed by its index, so
that in-place mutation (as the read path performs) and fresh allocation
(as the write path performs) are both observable. -/
abbrev Heap := List (List Nat)

/-- Translation of `EncFile.checkIsFile` (enc_file.go). -/
def EncFile.checkIsFile (f : EncFile) : Option FErr :=
  if f.closed then some FErr.fileClosed
  else if f.isDir then some FErr.eisdir
  else none

/-- The backend `(*os.File).Read`: fails on a closed descriptor, reports
`io.EOF` when no byte is available and the buffer is non-empty, otherwise
delivers up to `n` bytes from the current position and advances it. -/
def bRead (bf : BackendFile) (n : Nat) : Except FErr (List Nat) × BackendFile :=
  if bf.bClosed then (.error FErr.backendClosed, bf)
  else
    let avail := bf.content.length - bf.pos
    if n ≠ 0 ∧ avail = 0 then (.error FErr.eof, bf)
    else
      let k := min n avail
      (.ok ((bf.content.drop bf.pos).take k), { bf with pos := bf.pos + k })

/-- The backend `(*os.File).ReadAt`: positional read, never touches the
descriptor position; short reads report `io.EOF`. -/
def bReadAt (bf : BackendFile) (n off : Nat) : Except FErr (List Nat) :=
  if bf.bClosed then .error FErr.backendClosed
  else if bf.content.length < off + n then .error FErr.eof
  else .ok ((bf.content.drop off).take n)

/-- The backend `(*os.File).Write`: writes `data` at the current position
(zero-filling any gap), advances the position, returns the byte count. -/
def bWrite (bf : BackendFile) (data : List Nat) : Except FErr Nat × BackendFile :=
  if bf.bClosed then (.error FErr.backendClosed, bf)
  else
    let pre := bf.content.take bf.pos ++ List.replicate (bf.pos - bf.content.length) 0
    (.ok data.length,
      { bf with
        content := pre ++ data ++ bf.content.drop (bf.pos + data.length),
        pos := bf.pos + data.length })

/-- The backend `(*os.File).WriteAt`: positional write, position
unchanged. -/
def bWriteAt (bf : BackendFile) (data : List Nat) (off : Nat) :
    Except FErr Nat × BackendFile :=
  if bf.bClosed then (.error FErr.backendClosed, bf)
  else
    let pre := bf.content.take off ++ List.replicate (off - bf.content.length) 0
    (.ok data.length,
      { bf with content := pre ++ data ++ bf.content.drop (off + data.length) })

/-- Translation of `EncFile.Read` (enc_file.go).  The caller's buffer is
heap cell `pid`; the backend read fills its prefix, then — when content
encryption is active — the prefix is XORed in place with the keystream
generated at the cursor position held before the read.  The source
advances `f.filePos` by the backend-read length before generating the
keystream, and on a keystream error returns `(0, err)` with the cursor
left advanced. -/
def EncFile.Read (newCipher : List Nat → Option (List Nat → List Nat))
    (f : EncFile) (heap : Heap) (pid : Nat) :
    Except FErr Nat × EncFile × Heap :=
  match f.checkIsFile with
  | some e => (.error e, f, heap)
  | none =>
      let p := heap.getD pid []
      let beforeReadFilePos := f.filePos
      let rb := bRead f.file p.length
      match rb.1 with
      | .error e => (.error e, { f with file := rb.2 }, heap)
      | .ok data =>
          let readLen := data.length
          let f1 := { f with file := rb.2, filePos := f.filePos + readLen }
          let heap1 := heap.set pid (data ++ p.drop readLen)
          match f.key, f.encFileMeta with
          | some key, some meta =>
              match generateCtrEncryptBytes newCipher key meta.Iv beforeReadFilePos readLen with
              | none => (.error FErr.cipherErr, f1, heap1)
              | some ks =>
                  (.ok readLen, f1, heap.set pid (xorBytes data ks ++ p.drop readLen))
          | _, _ => (.ok readLen, f1, heap1)

/-- Translation of `EncFile.ReadAt` (enc_file.go): positional variant,
cursor untouched. -/
def EncFile.ReadAt (newCipher : List Nat → Option (List Nat → List Nat))
    (f : EncFile) (heap : Heap) (pid : Nat) (off : Nat) :
    Except FErr Nat × EncFile × Heap :=
  match f.checkIsFile with
  | some e => (.error e, f, heap)
  | none =>
      let p := heap.getD pid []
      match bReadAt f.file p.length off with
      | .error e => (.error e, f, heap)
      | .ok data =>
          let readLen := data.length
          let heap1 := heap.set pid (data ++ p.drop readLen)
          match f.key, f.encFileMeta with
          | some key, some meta =>
              match generateCtrEncryptBytes newCipher key meta.Iv off readLen with
              | none => (.error FErr.cipherErr, f, heap1)
              | some ks =>
                  (.ok readLen, f, heap.set pid (xorBytes data ks ++ p.drop readLen))
          | _, _ => (.ok readLen, f, heap1)

/-- Translation of `EncFile.Write` (enc_file.go).  With encryption active
the source allocates a fresh buffer (`buff := make([]byte, len(p))`,
modelled as a new heap cell), generates the keystream at the cursor, XORs
into the fresh buffer and hands that buffer to the backend; the caller's
cell `pid` is only ever read. -/
def EncFile.Write (newCipher : List Nat → Option (List Nat → List Nat))
    (f : EncFile) (heap : Heap) (pid : Nat) :
    Except FErr Nat × EncFile × Heap :=
  match f.checkIsFile with
  | some e => (.error e, f, heap)
  | none =>
      let p := heap.getD pid []
      match f.key, f.encFileMeta with
      | some key, some meta =>
          let buffId := heap.length
          let heap1 := heap ++ [List.replicate p.length 0]
          match generateCtrEncryptBytes newCipher key meta.Iv f.filePos p.length with
          | none => (.error FErr.cipherErr, f, heap1)
          | some ks =>
              let heap2 := heap1.set buffId (xorBytes p ks)
              let rw := bWrite f.file (heap2.getD buffId [])
              match rw.1 with
              | .error e => (.error e, { f with file := rw.2 }, heap2)
              | .ok writeLen =>
                  (.ok writeLen,
                    { f with file := rw.2, filePos := f.filePos + writeLen }, heap2)
      | _, _ =>
          let rw := bWrite f.file p
          match rw.1 with
          | .error e => (.error e, { f with file := rw.2 }, heap)
          | .ok writeLen =>
              (.ok writeLen,
                { f with file := rw.2, filePos := f.filePos + writeLen }, heap)

/-- Translation of `EncFile.WriteAt` (enc_file.go): positional variant,
keystream generated at the explicit offset, cursor never updated. -/
def EncFile.WriteAt (newCipher : List Nat → Option (List Nat → List Nat))
    (f : EncFile) (heap : Heap) (pid : Nat) (off : Nat) :
    Except FErr Nat × EncFile × Heap :=
  match f.checkIsFile with
  | some e => (.error e, f, heap)
  | none =>
      let p := heap.getD pid []
      match f.key, f.encFileMeta with
      | some key, some meta =>
          let buffId := heap.length
          let heap1 := heap ++ [List.replicate p.length 0]
          match generateCtrEncryptBytes newCipher key meta.Iv off p.length with
          | none => (.error FErr.cipherErr, f, heap1)
          | some ks =>
              let heap2 := heap1.set buffId (xorBytes p ks)
              let rw := bWriteAt f.file (heap2.getD buffId []) off
              match rw.1 with
              | .error e => (.error e, { f with file := rw.2 }, heap2)
              | .ok writeLen => (.ok writeLen, { f with file := rw.2 }, heap2)
      | _, _ =>
          let rw := bWriteAt f.file p off
          match rw.1 with
          | .error e => (.error e, { f with file := rw.2 }, heap)
          | .ok writeLen => (.ok writeLen, { f with file := rw.2 }, heap)

/-- Translation of `EncFile.Seek` (enc_file.go): guarded by
`checkIsFile`, delegates to the backend seek and mirrors the resulting
absolute position into `filePos` on success. -/
def EncFile.Seek (f : EncFile) (offset : Int) (whence : Nat) :
    Except FErr Int × EncFile :=
  match f.checkIsFile with
  | some e => (.error e, f)
  | none =>
      if f.file.bClosed then (.error FErr.backendClosed, f)
      else
        let base : Int :=
          match whence with
          | 0 => 0
          | 1 => (f.file.pos : Int)
          | _ => (f.file.content.length : Int)
        let ret := base + offset
        if ret < 0 then (.error FErr.invalidSeek, f)
        else
          (.ok ret,
            { f with filePos := ret.toNat, file := { f.file with pos := ret.toNat } })

/-- Translation of `EncFile.Readdir` (enc_file.go), reduced to its guard
and delegation structure: the handle-closed check, then the backend
listing (which itself fails on a closed descriptor). -/
def EncFile.Readdir (f : EncFile) (_count : Int) : Except FErr Unit :=
  if f.closed then .error FErr.fileClosed
  else if f.file.bClosed then .error FErr.backendClosed
  else .ok ()

/-- Translation of `EncFile.Stat` (enc_file.go): no closed-handle guard,
straight delegation to `f.file.Stat()` (wrapping of the returned file
info in an `EncFileInfo` is elided). -/
def EncFile.Stat (f : EncFile) : Except FErr Unit :=
  if f.file.bClosed then .error FErr.backendClosed else .ok ()

/-- Translation of `EncFile.Sync` (enc_file.go): straight delegation to
`f.file.Sync()`, no closed-handle guard. -/
def EncFile.Sync (f : EncFile) : Except FErr Unit :=
  if f.file.bClosed then .error FErr.backendClosed else .ok ()

/-- Translation of `EncFile.Truncate` (enc_file.go): straight delegation
to `f.file.Truncate(size)`, no closed-handle guard. -/
def EncFile.Truncate (f : EncFile) (size : Nat) : Except FErr Unit × EncFile :=
  if f.file.bClosed then (.error FErr.backendClosed, f)
  else
    (.ok (),
      { f with
        file :=
          { f.file with
            content :=
              f.file.content.take size ++
                List.replicate (size - f.file.content.length) 0 } })

/-- Translation of `EncFile.Close` (enc_file.go): a second close fails
with `afero.ErrFileClosed`; the first close marks the handle closed and
delegates to the backend close. -/
def EncFile.Close (f : EncFile) : Except FErr Unit × EncFile :=
  if f.closed then (.error FErr.fileClosed, f)
  else
    let r : Except FErr Unit :=
      if f.file.bClosed then .error FErr.backendClosed else .ok ()
    (r, { f with closed := true, file := { f.file with bClosed := true } })

/-- The constant `ENCRYPTED_FILE_NAME_PREFIX = "__ENCFS__"`, the marker that flags an
encrypted path segment (fs.go). -/
def encNameMarker : List Char := ['_', '_', 'E', 'N', 'C', 'F', 'S', '_', '_']

/-- Translation of `EncryptionMasterKey.decrypteFileNamePart` (fs.go).
Go strings are `List Char`; `b64Decode` models
`base64.RawURLEncoding.DecodeString` (bytes on success, failure on
malformed input); `newAesGcm` models `k.newAesGcm()` (absent when AES-GCM
construction fails) and, when present, carries `aesgcm.Open` under the
fixed name IV, returning the recovered plaintext bytes or failing
authentication.  Note the source returns the *trimmed* segment on a
base64 decode failure and the *original* segment on the other two
failures. -/
def decrypteFileNamePart (b64Decode : List Char → Option (List Nat))
    (newAesGcm : Option (List Nat → Option (List Nat)))
    (encrytpedFileNamePart : List Char) : List Char :=
  if ¬ encNameMarker.isPrefixOf encrytpedFileNamePart then
    encrytpedFileNamePart
  else
    let trimedEncryptedFileName :=
      encrytpedFileNamePart.drop encNameMarker.length
    match b64Decode trimedEncryptedFileName with
    | none => trimedEncryptedFileName
    | some encryptedFileNameBytes =>
        match newAesGcm with
        | none => encrytpedFileNamePart
        | some aesgcmOpen =>
            match aesgcmOpen encryptedFileNameBytes with
            | none => encrytpedFileNamePart
            | some nameBytes => nameBytes.map Char.ofNat

/-- Split a path on `'/'`, keeping empty segments
(`strings.Split(p, "/")` shape, used to model `path.Clean`). -/
def splitOnSlash : List Char → List (List Char)
  | [] => [[]]
  | c :: cs =>
      let r := splitOnSlash cs
      if c = '/' then [] :: r
      else
        match r with
        | [] => [[c]]
        | h :: t => (c :: h) :: t

/-- One step of the element stack underlying `path.Clean`: skip empty and
`"."` segments, resolve `".."` against the stack (dropping it at a rooted
top), push everything else. -/
def cleanStep (rooted : Bool) (stack : List (List Char)) (e : List Char) :
    List (List Char) :=
  if e = [] ∨ e = ['.'] then stack
  else if e = ['.', '.'] then
    match stack with
    | [] => if rooted then [] else [['.', '.']]
    | t :: rest => if t = ['.', '.'] then e :: t :: rest else rest
  else e :: stack

/-- Join segments with `'/'`. -/
def joinSlash : List (List Char) → List Char
  | [] => []
  | [e] => e
  | e :: rest => e ++ '/' :: joinSlash rest

/-- Model of `path.Clean` of the Go standard library (an external collaborator of
fs.go), rendered by its documented element algorithm: eliminate empty and
`"."` segments, resolve `".."`, keep a leading `"/"`, and return `"."`
for an empty result. -/
def pathClean (p : List Char) : List Char :=
  if p = [] then ['.']
  else
    let rooted := p.head? = some '/'
    let stack := (splitOnSlash p).foldl (cleanStep rooted) []
    if stack = [] then (if rooted then ['/'] else ['.'])
    else (if rooted then ['/'] else []) ++ joinSlash stack.reverse

/-- Translation of `slashClean` (fs.go): `path.Clean("/" + name)`. -/
def slashClean (name : List Char) : List Char :=
  if name = [] ∨ name.head? ≠ some '/' then pathClean ('/' :: name)
  else pathClean name

/-- Translation of `EncFs.resolve` (fs.go, base-directory variant) on a
platform whose separator is `'/'` (so the foreign-separator rejection is
vacuous): an empty base passes the name through, an embedded NUL byte
resolves to the empty string, otherwise the cleaned name is joined onto
the base directory (`filepath.Join(dir, x) = Clean(dir + "/" + x)`). -/
def resolve (baseDirectory name : List Char) : List Char :=
  if baseDirectory = [] then name
  else if name.contains (Char.ofNat 0) then []
  else
    let dir := if baseDirectory = [] then ['.'] else baseDirectory
    pathClean (dir ++ '/' :: slashClean name)

/-- Errors of the base-directory facade. -/
inductive OsErr where
  | errNotExist
  | errInvalid
  deriving DecidableEq, Repr

/-- Mutating or probing backend calls issued by a facade operation, in
order.  An empty trace means the backend was left untouched. -/
inductive BOp where
  | mkdir : List Char → BOp
  | mkdirAll : List Char → BOp
  | removeFile : List Char → BOp
  | removeAllRec : List Char → BOp
  | renameOp : List Char → List Char → BOp
  | statQ : List Char → BOp
  deriving DecidableEq, Repr

/-- Translation of `EncFs.Mkdir` (fs.go, base-directory variant): resolve,
reject the empty resolution, then delegate `os.Mkdir` to the backend
(whose own outcome is abstracted as success; no virtual-root check is
present in the source). -/
def EncFs.Mkdir (baseDirectory name : List Char) : Except OsErr Unit × List BOp :=
  let n := resolve baseDirectory name
  if n = [] then (.error OsErr.errNotExist, [])
  else (.ok (), [BOp.mkdir n])

/-- Translation of `EncFs.MkdirAll` (fs.go, base-directory variant):
resolve, reject the empty resolution, reject the cleaned base directory
with `os.ErrInvalid`, else delegate. -/
def EncFs.MkdirAll (baseDirectory p : List Char) : Except OsErr Unit × List BOp :=
  let n := resolve baseDirectory p
  if n = [] then (.error OsErr.errNotExist, [])
  else if n = pathClean baseDirectory then (.error OsErr.errInvalid, [])
  else (.ok (), [BOp.mkdirAll n])

/-- Translation of `EncFs.Remove` (fs.go, base-directory variant):
resolve, then best-effort remove of the sidecar followed by removal of
the file itself. -/
def EncFs.Remove (baseDirectory name : List Char) : Except OsErr Unit × List BOp :=
  let n := resolve baseDirectory name
  if n = [] then (.error OsErr.errNotExist, [])
  else (.ok (), [BOp.removeFile (n ++ EncFileExt), BOp.removeFile n])

/-- Translation of `EncFs.RemoveAll` (fs.go, base-directory variant):
resolve, reject the empty resolution, reject the cleaned base directory
with `os.ErrInvalid`, then stat (`stat` yields `some isDir` on success)
and either remove a plain file via `EncFs.Remove` (note the source passes
the already-resolved path back through `Remove`, which resolves again) or
delegate the recursive removal. -/
def EncFs.RemoveAll (stat : List Char → Option Bool) (baseDirectory p : List Char) :
    Except OsErr Unit × List BOp :=
  let n := resolve baseDirectory p
  if n = [] then (.error OsErr.errNotExist, [])
  else if n = pathClean baseDirectory then (.error OsErr.errInvalid, [])
  else
    match stat n with
    | some false =>
        let rr := EncFs.Remove baseDirectory n
        (rr.1, BOp.statQ n :: rr.2)
    | _ => (.ok (), [BOp.statQ n, BOp.removeAllRec n])

/-- Translation of `EncFs.Rename` (fs.go, base-directory variant):
resolve both names, reject empty resolutions, reject the cleaned base
directory on either side with `os.ErrInvalid`, then best-effort rename of
the sidecar followed by the rename itself. -/
def EncFs.Rename (baseDirectory oldname newname : List Char) :
    Except OsErr Unit × List BOp :=
  let o := resolve baseDirectory oldname
  if o = [] then (.error OsErr.errNotExist, [])
  else
    let n := resolve baseDirectory newname
    if n = [] then (.error OsErr.errNotExist, [])
    else if pathClean baseDirectory = o ∨ pathClean baseDirectory = n then
      (.error OsErr.errInvalid, [])
    else
      (.ok (),
        [BOp.renameOp (o ++ EncFileExt) (n ++ EncFileExt), BOp.renameOp o n])


/-- The 128-bit big-endian value of a 16-byte nonce (used to state what the
spec asserts about `nonceAdd`). -/
def toUint128BE (l : List Nat) : Nat :=
  l.foldl (fun a b => a * 256 + b % 256) 0

/-- The 16-byte big-endian encoding of a 128-bit value. -/
def putUint128BE (n : Nat) : List Nat :=
  (List.range 16).map (fun i => n / 2 ^ (8 * (15 - i)) % 256)

/-- The behaviour the spec ascribes to `nonceAdd`: the 16-byte big-endian
encoding of (nonce value + increment) mod 2^128.  This definition follows
the spec's words and exists only to be compared with `nonceAdd`, the
translation of the source. -/
def nonceAddSpec (nonce : List Nat) (incrementValue : Nat) : List Nat :=
  putUint128BE ((toUint128BE nonce + incrementValue) % 2 ^ 128)

/-! ## Helper lemmas -/

theorem xorBytes_involution : ∀ p k : List Nat, p.length ≤ k.length →
    xorBytes (xorBytes p k) k = p
  | [], _, _ => rfl
  | _ :: _, [], h => by simp at h
  | a :: p, b :: k, h => by
      simp only [xorBytes, List.zipWith_cons_cons]
      rw [Nat.xor_cancel_right]
      exact congrArg (a :: ·)
        (xorBytes_involution p k (Nat.le_of_succ_le_succ (by simpa using h)))

theorem ctrBlocks_length (enc : List Nat → List Nat) (iv : List Nat)
    (b : Nat) (hE : ∀ x, (enc x).length = 16) :
    ∀ n, (ctrBlocks enc iv b n).length = 16 * n := by
  intro n
  induction n with
  | zero => rfl
  | succ n ih => simp [ctrBlocks, ih, hE, Nat.mul_succ]

theorem ctrBlocks_getElem (enc : List Nat → List Nat) (iv : List Nat)
    (b : Nat) (hE : ∀ x, (enc x).length = 16) :
    ∀ n j, j < 16 * n →
      (ctrBlocks enc iv b n)[j]? = (enc (nonceAdd iv (j / 16 + b)))[j % 16]? := by
  intro n
  induction n with
  | zero => intro j hj; omega
  | succ n ih =>
      intro j hj
      by_cases h : j < 16 * n
      · rw [show ctrBlocks enc iv b (n + 1) =
            ctrBlocks enc iv b n ++ enc (nonceAdd iv (n + b)) from rfl]
        rw [List.getElem?_append_left (by rw [ctrBlocks_length enc iv b hE n]; exact h)]
        exact ih j h
      · have h1 : j / 16 = n := by omega
        have h2 : j % 16 = j - 16 * n := by omega
        rw [show ctrBlocks enc iv b (n + 1) =
            ctrBlocks enc iv b n ++ enc (nonceAdd iv (n + b)) from rfl]
        rw [List.getElem?_append_right (by rw [ctrBlocks_length enc iv b hE n]; omega)]
        rw [ctrBlocks_length enc iv b hE n, h1, h2]

theorem generateCtrEncryptBytes_eq (newCipher : List Nat → Option (List Nat → List Nat))
    (key iv : List Nat) (offset len : Nat) (enc : List Nat → List Nat)
    (hC : newCipher key = some enc) :
    generateCtrEncryptBytes newCipher key iv offset len =
      some (((ctrBlocks enc iv (offset / 16)
          (((offset + len) / 16 * 16 +
              (if (offset + len) % 16 > 0 then 16 else 0) -
            offset / 16 * 16) / 16)).drop
          (offset - offset / 16 * 16)).take len) := by
  simp [generateCtrEncryptBytes, hC]

theorem ctr_count_bound (offset len : Nat) :
    offset - offset / 16 * 16 + len ≤
      16 * (((offset + len) / 16 * 16 +
          (if (offset + len) % 16 > 0 then 16 else 0) -
        offset / 16 * 16) / 16) := by
  by_cases hp : (offset + len) % 16 > 0 <;> simp [hp] <;> omega

theorem generateCtrEncryptBytes_length (newCipher : List Nat → Option (List Nat → List Nat))
    (key iv : List Nat) (offset len : Nat) (enc : List Nat → List Nat)
    (hC : newCipher key = some enc) (hE : ∀ x, (enc x).length = 16) :
    ∀ ks, generateCtrEncryptBytes newCipher key iv offset len = some ks →
      ks.length = len := by
  intro ks hks
  rw [generateCtrEncryptBytes_eq newCipher key iv offset len enc hC] at hks
  injection hks with hks
  subst hks
  rw [List.length_take, List.length_drop,
    ctrBlocks_length enc iv (offset / 16) hE]
  have := ctr_count_bound offset len
  omega

theorem generateCtrEncryptBytes_getElem (newCipher : List Nat → Option (List Nat → List Nat))
    (key iv : List Nat) (offset len i : Nat) (enc : List Nat → List Nat)
    (hC : newCipher key = some enc) (hE : ∀ x, (enc x).length = 16)
    (hi : i < len) :
    ∀ ks, generateCtrEncryptBytes newCipher key iv offset len = some ks →
      ks[i]? = (enc (nonceAdd iv ((offset + i) / 16)))[(offset + i) % 16]? := by
  intro ks hks
  rw [generateCtrEncryptBytes_eq newCipher key iv offset len enc hC] at hks
  injection hks with hks
  subst hks
  rw [List.getElem?_take_of_lt hi, List.getElem?_drop]
  rw [ctrBlocks_getElem enc iv (offset / 16) hE _ _
    (by have := ctr_count_bound offset len; omega)]
  rw [show (offset - offset / 16 * 16 + i) / 16 + offset / 16 = (offset + i) / 16 by omega,
    show (offset - offset / 16 * 16 + i) % 16 = (offset + i) % 16 by omega]

/-! ## Claim theorems -/

/-- C1: XOR involution of the content transform.  For every key of a
valid AES length (so `aes.NewCipher` yields a 16-byte-block cipher),
every 16-byte IV, every offset and every plaintext, XORing the plaintext
byte-wise with `generateCtrEncryptBytes key iv offset (length plaintext)`
twice yields the original plaintext. -/
theorem generateCtrEncryptBytes_xor_involution
    (newCipher : List Nat → Option (List Nat → List Nat))
    (key iv plaintext : List Nat) (offset : Nat) (enc : List Nat → List Nat)
    (_hK : key.length = 16 ∨ key.length = 24 ∨ key.length = 32)
    (hC : newCipher key = some enc)
    (hE : ∀ x, (enc x).length = 16)
    (_hIv : iv.length = 16) :
    ∃ ks, generateCtrEncryptBytes newCipher key iv offset plaintext.length = some ks ∧
      xorBytes (xorBytes plaintext ks) ks = plaintext := by
  refine ⟨_, generateCtrEncryptBytes_eq newCipher key iv offset _ enc hC, ?_⟩
  refine xorBytes_involution _ _ ?_
  rw [generateCtrEncryptBytes_length newCipher key iv offset plaintext.length enc hC hE _
    (generateCtrEncryptBytes_eq newCipher key iv offset _ enc hC)]

theorem generateCtrEncryptBytes_xor_involution_witness :
    ∃ ks, generateCtrEncryptBytes
        (fun k => if k.length = 16 then some (fun x => (x ++ List.replicate 16 0).take 16) else none)
        (List.replicate 16 0) (List.replicate 16 1) 7 ([3, 5, 250] : List Nat).length = some ks ∧
      xorBytes (xorBytes [3, 5, 250] ks) ks = [3, 5, 250] :=
  generateCtrEncryptBytes_xor_involution _ _ _ _ _ _
    (Or.inl (by decide)) rfl (fun x => by simp) (by decide)

/-- C3: random-access independence of the keystream.  Byte `i` of the
keystream generated for the range starting at `o` with length `l` equals
byte `0` of the keystream generated for the single byte at absolute
position `o + i`: a keystream byte depends only on the key, the IV and
the absolute position. -/
theorem generateCtrEncryptBytes_random_access
    (newCipher : List Nat → Option (List Nat → List Nat))
    (key iv : List Nat) (o l i : Nat) (enc : List Nat → List Nat)
    (_hK : key.length = 16 ∨ key.length = 24 ∨ key.length = 32)
    (hC : newCipher key = some enc)
    (hE : ∀ x, (enc x).length = 16)
    (_hIv : iv.length = 16)
    (hi : i < l) :
    ∃ ks1 ks2,
      generateCtrEncryptBytes newCipher key iv o l = some ks1 ∧
      generateCtrEncryptBytes newCipher key iv (o + i) 1 = some ks2 ∧
      ks1[i]? = ks2[0]? := by
  refine ⟨_, _, generateCtrEncryptBytes_eq newCipher key iv o l enc hC,
    generateCtrEncryptBytes_eq newCipher key iv (o + i) 1 enc hC, ?_⟩
  rw [generateCtrEncryptBytes_getElem newCipher key iv o l i enc hC hE hi _
    (generateCtrEncryptBytes_eq newCipher key iv o l enc hC)]
  rw [generateCtrEncryptBytes_getElem newCipher key iv (o + i) 1 0 enc hC hE
    (by omega) _ (generateCtrEncryptBytes_eq newCipher key iv (o + i) 1 enc hC)]
  rw [Nat.add_zero]

theorem generateCtrEncryptBytes_random_access_witness :
    ∃ ks1 ks2,
      generateCtrEncryptBytes
          (fun k => if k.length = 16 then some (fun x => (x ++ List.replicate 16 0).take 16) else none)
          (List.replicate 16 0) (List.replicate 16 1) 3 5 = some ks1 ∧
      generateCtrEncryptBytes
          (fun k => if k.length = 16 then some (fun x => (x ++ List.replicate 16 0).take 16) else none)
          (List.replicate 16 0) (List.replicate 16 1) (3 + 2) 1 = some ks2 ∧
      ks1[2]? = ks2[0]? :=
  generateCtrEncryptBytes_random_access _ _ _ 3 5 2 _
    (Or.inl (by decide)) rfl (fun x => by simp) (by decide) (by decide)

/-- C2: the claim states `nonceAdd` is 128-bit big-endian addition modulo
2^128, carrying into the high half exactly on low-half overflow.  The
source instead carries whenever `leftToMax <= incrementValue`, i.e. also
when the low-half sum is exactly 2^64 - 1 (no overflow): adding 0 to a
nonce whose low half is all 0xFF increments the high half.  This theorem
evaluates the code and the claimed value at that failing input. -/
theorem nonceAdd_carry_boundary :
    nonceAdd (List.replicate 8 0 ++ List.replicate 8 255) 0 =
      [0, 0, 0, 0, 0, 0, 0, 1] ++ List.replicate 8 255 ∧
    nonceAddSpec (List.replicate 8 0 ++ List.replicate 8 255) 0 =
      List.replicate 8 0 ++ List.replicate 8 255 ∧
    nonceAdd (List.replicate 8 0 ++ List.replicate 8 255) 0 ≠
      nonceAddSpec (List.replicate 8 0 ++ List.replicate 8 255) 0 :=
  ⟨by decide, by decide, by decide⟩

/-- C4, counterexample: the claim says a sidecar whose content fails to
deserialize makes `openOrNewEncFileMeta` fail with a hard error.  On the
concrete state holding a sidecar for `g` whose content `[255]` does not
decode, `openOrNewEncFileMeta` instead succeeds, regenerating a fresh IV
and overwriting the sidecar (only `openEncFileMeta` reports the error). -/
theorem openOrNewEncFileMeta_corrupt_regenerates :
    metaDecode [255] = none ∧
    openEncFileMeta metaDecode [(['g'] ++ EncFileExt, FsNode.file [255])] ['g'] =
      .error () ∧
    openOrNewEncFileMeta metaEncode metaDecode [9]
        [(['g'] ++ EncFileExt, FsNode.file [255])] ['g'] =
      .ok (⟨['g'], [9]⟩,
        fsInsert [(['g'] ++ EncFileExt, FsNode.file [255])] (['g'] ++ EncFileExt)
          (metaEncode ⟨['g'], [9]⟩)) :=
  ⟨by decide, by decide, by decide⟩

/-- C4, amended: whenever a sidecar record exists and deserializes,
`openOrNewEncFileMeta` returns it with its IV unchanged and does not touch
the state; when the sidecar's content fails to deserialize (or cannot be
read), the operation does not fail: it silently builds a record with the
fresh random IV and overwrites the sidecar.  The hard deserialization
error is reported only by `openEncFileMeta`. -/
theorem openOrNewEncFileMeta_amended
    (marshal : EncFileMeta → List Nat) (unmarshal : List Nat → Option EncFileMeta)
    (randIv : List Nat) (fs : FsState) (name : List Char) :
    (∀ m, openEncFileMeta unmarshal fs name = .ok (some m) →
      openOrNewEncFileMeta marshal unmarshal randIv fs name = .ok (m, fs)) ∧
    (openEncFileMeta unmarshal fs name = .error () →
      openOrNewEncFileMeta marshal unmarshal randIv fs name =
        .ok (⟨name, randIv⟩,
          fsInsert fs (name ++ EncFileExt) (marshal ⟨name, randIv⟩))) := by
  constructor
  · intro m h
    simp [openOrNewEncFileMeta, h]
  · intro h
    simp [openOrNewEncFileMeta, h]

theorem openOrNewEncFileMeta_amended_witness :
    openOrNewEncFileMeta metaEncode metaDecode [9]
        [(['f'] ++ EncFileExt, FsNode.file (metaEncode ⟨['f'], [7]⟩))] ['f'] =
      .ok (⟨['f'], [7]⟩, [(['f'] ++ EncFileExt, FsNode.file (metaEncode ⟨['f'], [7]⟩))]) ∧
    openOrNewEncFileMeta metaEncode metaDecode [9]
        [(['h'] ++ EncFileExt, FsNode.file [44])] ['h'] =
      .ok (⟨['h'], [9]⟩,
        fsInsert [(['h'] ++ EncFileExt, FsNode.file [44])] (['h'] ++ EncFileExt)
          (metaEncode ⟨['h'], [9]⟩)) :=
  ⟨(openOrNewEncFileMeta_amended metaEncode metaDecode [9]
      [(['f'] ++ EncFileExt, FsNode.file (metaEncode ⟨['f'], [7]⟩))] ['f']).1
      ⟨['f'], [7]⟩ (by decide),
   (openOrNewEncFileMeta_amended metaEncode metaDecode [9]
      [(['h'] ++ EncFileExt, FsNode.file [44])] ['h']).2 (by decide)⟩

/-- C5, counterexample: the claim says that after opening an existing
empty regular file non-creationally a metadata record with a *fresh*
random IV exists.  On the concrete state where the empty file `f` already
has a sidecar with IV `[7]`, `NewEncFile` (with fresh random bytes `[9]`)
succeeds but keeps the pre-existing record: the record's IV is `[7]`, not
the freshly generated `[9]`. -/
theorem NewEncFile_preexisting_sidecar_keeps_iv :
    NewEncFile metaEncode metaDecode [9] none
        [(['f'], FsNode.file []),
         (['f'] ++ EncFileExt, FsNode.file (metaEncode ⟨['f'], [7]⟩))]
        ['f'] ⟨false, 0, []⟩ false =
      .ok (⟨false, false, some ⟨['f'], [7]⟩, none, 0, ⟨false, 0, []⟩⟩,
        [(['f'], FsNode.file []),
         (['f'] ++ EncFileExt, FsNode.file (metaEncode ⟨['f'], [7]⟩))]) ∧
    ([7] : List Nat) ≠ [9] :=
  ⟨by decide, by decide⟩

/-- C5, amended: opening a path that exists on the backend as a regular
file of size zero is treated as creation even when `isCreate` is false:
the open succeeds on a non-directory handle and a metadata record exists
for the file afterwards (readable back from the resulting state).  Its IV
is the freshly generated random IV exactly when no valid sidecar record
previously existed; a pre-existing valid record is kept with its old
IV. -/
theorem NewEncFile_empty_file_is_create
    (marshal : EncFileMeta → List Nat) (unmarshal : List Nat → Option EncFileMeta)
    (randIv : List Nat) (encKey : Option (List Nat)) (fs : FsState)
    (name : List Char) (bf : BackendFile) (isCreate : Bool)
    (hEmpty : fsLookup fs name = some (FsNode.file []))
    (hRt : unmarshal (marshal ⟨name, randIv⟩) = some ⟨name, randIv⟩) :
    ∃ m fs', NewEncFile marshal unmarshal randIv encKey fs name bf isCreate =
        .ok (⟨false, false, some m, encKey, 0, bf⟩, fs') ∧
      openEncFileMeta unmarshal fs' name = .ok (some m) := by
  rcases h : openEncFileMeta unmarshal fs name with he | om
  · refine ⟨⟨name, randIv⟩, fsInsert fs (name ++ EncFileExt) (marshal ⟨name, randIv⟩), ?_, ?_⟩
    · simp [NewEncFile, hEmpty, openOrNewEncFileMeta, h]
    · simp [openEncFileMeta, fsInsert, fsLookup, hRt]
  · rcases om with _ | m
    · refine ⟨⟨name, randIv⟩, fsInsert fs (name ++ EncFileExt) (marshal ⟨name, randIv⟩), ?_, ?_⟩
      · simp [NewEncFile, hEmpty, openOrNewEncFileMeta, h]
      · simp [openEncFileMeta, fsInsert, fsLookup, hRt]
    · exact ⟨m, fs, by simp [NewEncFile, hEmpty, openOrNewEncFileMeta, h], h⟩

theorem NewEncFile_empty_file_is_create_witness :
    ∃ m fs', NewEncFile metaEncode metaDecode [9] none
        [(['f'], FsNode.file [])] ['f'] ⟨false, 0, []⟩ false =
        .ok (⟨false, false, some m, none, 0, ⟨false, 0, []⟩⟩, fs') ∧
      openEncFileMeta metaDecode fs' ['f'] = .ok (some m) :=
  NewEncFile_empty_file_is_create metaEncode metaDecode [9] none
    [(['f'], FsNode.file [])] ['f'] ⟨false, 0, []⟩ false (by decide) (by decide)

/-- C6, counterexample: the claim says `Stat` on a closed handle fails
with the closed-handle error.  On a concrete closed handle (whose backend
descriptor is closed too, as `Close` leaves it), `Stat` performs no
closed-handle check: it delegates and surfaces the backend's own
closed-descriptor error, which is not the handle-layer closed-handle
error. -/
theorem EncFile_Stat_closed_not_handle_error :
    (⟨false, true, none, none, 0, ⟨true, 0, []⟩⟩ : EncFile).closed = true ∧
    EncFile.Stat ⟨false, true, none, none, 0, ⟨true, 0, []⟩⟩ =
      .error FErr.backendClosed ∧
    EncFile.Stat ⟨false, true, none, none, 0, ⟨true, 0, []⟩⟩ ≠
      .error FErr.fileClosed :=
  ⟨by decide, by decide, by decide⟩

/-- C6, amended: on a handle whose closed flag is set, `Read`, `ReadAt`,
`Write`, `WriteAt`, `Seek` and `Readdir` fail with the closed-handle
error and leave everything unchanged, and a second `Close` fails with the
closed-handle error.  `Stat`, `Sync` and `Truncate` have no closed-handle
guard: they delegate to the backend and never return the handle-layer
closed-handle error (on a closed backend descriptor they surface the
backend's own error instead). -/
theorem EncFile_closed_handle_discipline
    (nc : List Nat → Option (List Nat → List Nat)) (f : EncFile)
    (heap : Heap) (pid off size : Nat) (offset : Int) (whence : Nat)
    (count : Int) (hc : f.closed = true) :
    EncFile.Read nc f heap pid = (.error FErr.fileClosed, f, heap) ∧
    EncFile.ReadAt nc f heap pid off = (.error FErr.fileClosed, f, heap) ∧
    EncFile.Write nc f heap pid = (.error FErr.fileClosed, f, heap) ∧
    EncFile.WriteAt nc f heap pid off = (.error FErr.fileClosed, f, heap) ∧
    EncFile.Seek f offset whence = (.error FErr.fileClosed, f) ∧
    EncFile.Readdir f count = .error FErr.fileClosed ∧
    EncFile.Close f = (.error FErr.fileClosed, f) ∧
    EncFile.Stat f ≠ .error FErr.fileClosed ∧
    EncFile.Sync f ≠ .error FErr.fileClosed ∧
    (EncFile.Truncate f size).1 ≠ .error FErr.fileClosed := by
  have hch : f.checkIsFile = some FErr.fileClosed := by
    simp [EncFile.checkIsFile, hc]
  refine ⟨?_, ?_, ?_, ?_, ?_, ?_, ?_, ?_, ?_, ?_⟩
  · simp [EncFile.Read, hch]
  · simp [EncFile.ReadAt, hch]
  · simp [EncFile.Write, hch]
  · simp [EncFile.WriteAt, hch]
  · simp [EncFile.Seek, hch]
  · simp [EncFile.Readdir, hc]
  · simp [EncFile.Close, hc]
  · cases hb : f.file.bClosed <;> simp [EncFile.Stat, hb]
  · cases hb : f.file.bClosed <;> simp [EncFile.Sync, hb]
  · cases hb : f.file.bClosed <;> simp [EncFile.Truncate, hb]

theorem EncFile_closed_handle_discipline_witness :
    EncFile.Read (fun _ => none) ⟨false, true, none, none, 0, ⟨true, 0, []⟩⟩ [[1]] 0 =
      (.error FErr.fileClosed, ⟨false, true, none, none, 0, ⟨true, 0, []⟩⟩, [[1]]) ∧
    EncFile.ReadAt (fun _ => none) ⟨false, true, none, none, 0, ⟨true, 0, []⟩⟩ [[1]] 0 0 =
      (.error FErr.fileClosed, ⟨false, true, none, none, 0, ⟨true, 0, []⟩⟩, [[1]]) ∧
    EncFile.Write (fun _ => none) ⟨false, true, none, none, 0, ⟨true, 0, []⟩⟩ [[1]] 0 =
      (.error FErr.fileClosed, ⟨false, true, none, none, 0, ⟨true, 0, []⟩⟩, [[1]]) ∧
    EncFile.WriteAt (fun _ => none) ⟨false, true, none, none, 0, ⟨true, 0, []⟩⟩ [[1]] 0 0 =
      (.error FErr.fileClosed, ⟨false, true, none, none, 0, ⟨true, 0, []⟩⟩, [[1]]) ∧
    EncFile.Seek ⟨false, true, none, none, 0, ⟨true, 0, []⟩⟩ 0 0 =
      (.error FErr.fileClosed, ⟨false, true, none, none, 0, ⟨true, 0, []⟩⟩) ∧
    EncFile.Readdir ⟨false, true, none, none, 0, ⟨true, 0, []⟩⟩ 1 = .error FErr.fileClosed ∧
    EncFile.Close ⟨false, true, none, none, 0, ⟨true, 0, []⟩⟩ =
      (.error FErr.fileClosed, ⟨false, true, none, none, 0, ⟨true, 0, []⟩⟩) ∧
    EncFile.Stat ⟨false, true, none, none, 0, ⟨true, 0, []⟩⟩ ≠ .error FErr.fileClosed ∧
    EncFile.Sync ⟨false, true, none, none, 0, ⟨true, 0, []⟩⟩ ≠ .error FErr.fileClosed ∧
    (EncFile.Truncate ⟨false, true, none, none, 0, ⟨true, 0, []⟩⟩ 3).1 ≠ .error FErr.fileClosed :=
  EncFile_closed_handle_discipline (fun _ => none)
    ⟨false, true, none, none, 0, ⟨true, 0, []⟩⟩ [[1]] 0 0 3 0 0 1 (by decide)

/-- C7, counterexample: the claim says a marker-prefixed segment whose
remainder fails base64url decoding comes back unchanged, marker included.
With a decoder that rejects `'!'` (as `base64.RawURLEncoding` does) the
segment `__ENCFS__!x` comes back as `!x`: the marker has been stripped,
so the result differs from the original segment. -/
theorem decrypteFileNamePart_b64_failure_strips_marker :
    decrypteFileNamePart
        (fun s => if s.contains '!' then none else some []) none
        (encNameMarker ++ ['!', 'x']) = ['!', 'x'] ∧
    (['!', 'x'] : List Char) ≠ encNameMarker ++ ['!', 'x'] :=
  ⟨by decide, by decide⟩

/-- C7, amended: for a segment carrying the encrypted-name marker,
a base64url decode failure returns the segment with the marker stripped
(not the original segment); an AEAD construction failure or an AEAD
authentication failure returns the original segment unchanged, marker
included.  No failure is ever surfaced as an error. -/
theorem decrypteFileNamePart_soft_failure
    (b64Decode : List Char → Option (List Nat))
    (newAesGcm : Option (List Nat → Option (List Nat)))
    (part : List Char)
    (hp : encNameMarker.isPrefixOf part = true) :
    (b64Decode (part.drop encNameMarker.length) = none →
      decrypteFileNamePart b64Decode newAesGcm part =
        part.drop encNameMarker.length) ∧
    (∀ bs, b64Decode (part.drop encNameMarker.length) = some bs →
      newAesGcm = none →
      decrypteFileNamePart b64Decode newAesGcm part = part) ∧
    (∀ bs aesgcmOpen, b64Decode (part.drop encNameMarker.length) = some bs →
      newAesGcm = some aesgcmOpen → aesgcmOpen bs = none →
      decrypteFileNamePart b64Decode newAesGcm part = part) := by
  refine ⟨?_, ?_, ?_⟩
  · intro h
    simp [decrypteFileNamePart, hp, h]
  · intro bs h hg
    simp [decrypteFileNamePart, hp, h, hg]
  · intro bs aesgcmOpen h hg ha
    simp [decrypteFileNamePart, hp, h, hg, ha]

theorem decrypteFileNamePart_soft_failure_witness :
    (decrypteFileNamePart (fun _ => none) none (encNameMarker ++ ['a']) =
      (encNameMarker ++ ['a']).drop encNameMarker.length) ∧
    (decrypteFileNamePart (fun _ => some [1]) (some (fun _ => none))
      (encNameMarker ++ ['a']) = encNameMarker ++ ['a']) :=
  ⟨(decrypteFileNamePart_soft_failure (fun _ => none) none
      (encNameMarker ++ ['a']) (by decide)).1 rfl,
   (decrypteFileNamePart_soft_failure (fun _ => some [1]) (some (fun _ => none))
      (encNameMarker ++ ['a']) (by decide)).2.2 [1] (fun _ => none) rfl rfl rfl⟩

/-- C8, counterexample: the claim says `Mkdir` on an argument resolving
exactly to the cleaned base directory returns an invalid-argument error
and performs no backend operation.  With base directory `/b`, the name
`"."` resolves exactly to the cleaned base `/b`, yet `Mkdir` has no
virtual-root check: it issues the backend mkdir on `/b` and does not
return the invalid-argument error. -/
theorem EncFs_Mkdir_virtual_root_unprotected :
    resolve ['/', 'b'] ['.'] = pathClean ['/', 'b'] ∧
    EncFs.Mkdir ['/', 'b'] ['.'] = (.ok (), [BOp.mkdir ['/', 'b']]) ∧
    (EncFs.Mkdir ['/', 'b'] ['.']).1 ≠ .error OsErr.errInvalid :=
  ⟨by decide, by decide, by decide⟩

/-- C8, amended: when an argument resolves exactly to the cleaned base
directory, `MkdirAll`, `RemoveAll` and `Rename` (on either side) return
`os.ErrInvalid` and perform no backend operation; `Mkdir` performs no
such check and issues the backend mkdir on the resolved path. -/
theorem EncFs_virtual_root_protection
    (stat : List Char → Option Bool) (baseDirectory name other : List Char)
    (hr : resolve baseDirectory name = pathClean baseDirectory)
    (hne : resolve baseDirectory name ≠ [])
    (ho : resolve baseDirectory other ≠ []) :
    EncFs.MkdirAll baseDirectory name = (.error OsErr.errInvalid, []) ∧
    EncFs.RemoveAll stat baseDirectory name = (.error OsErr.errInvalid, []) ∧
    EncFs.Rename baseDirectory name other = (.error OsErr.errInvalid, []) ∧
    EncFs.Rename baseDirectory other name = (.error OsErr.errInvalid, []) ∧
    EncFs.Mkdir baseDirectory name = (.ok (), [BOp.mkdir (pathClean baseDirectory)]) := by
  have hne' : pathClean baseDirectory ≠ [] := hr ▸ hne
  refine ⟨?_, ?_, ?_, ?_, ?_⟩
  · simp [EncFs.MkdirAll, hr, hne']
  · simp [EncFs.RemoveAll, hr, hne']
  · simp [EncFs.Rename, hr, hne', ho]
  · simp [EncFs.Rename, hr, hne', ho]
  · simp [EncFs.Mkdir, hr, hne']

theorem EncFs_virtual_root_protection_witness :
    EncFs.MkdirAll ['/', 'b'] ['.'] = (.error OsErr.errInvalid, []) ∧
    EncFs.RemoveAll (fun _ => none) ['/', 'b'] ['.'] = (.error OsErr.errInvalid, []) ∧
    EncFs.Rename ['/', 'b'] ['.'] ['x'] = (.error OsErr.errInvalid, []) ∧
    EncFs.Rename ['/', 'b'] ['x'] ['.'] = (.error OsErr.errInvalid, []) ∧
    EncFs.Mkdir ['/', 'b'] ['.'] = (.ok (), [BOp.mkdir (pathClean ['/', 'b'])]) :=
  EncFs_virtual_root_protection (fun _ => none) ['/', 'b'] ['.'] ['x']
    (by decide) (by decide) (by decide)

/-- C9: caller buffer preservation on write.  `Write` and `WriteAt` only
ever extend the buffer heap (with the freshly allocated XOR buffer when
content encryption is active): every pre-existing cell, in particular the
caller's buffer `pid`, is left exactly as it was, on every path of the
operation.  `Read`, by contrast, mutates the caller's cell in place, so
the heap model does observe buffer mutation where it happens. -/
theorem EncFile_Write_preserves_caller_buffers
    (nc : List Nat → Option (List Nat → List Nat)) (f : EncFile)
    (heap : Heap) (pid off : Nat) :
    (∃ t, (EncFile.Write nc f heap pid).2.2 = heap ++ t) ∧
    (∃ t, (EncFile.WriteAt nc f heap pid off).2.2 = heap ++ t) := by
  have hset : ∀ (z x : List Nat),
      (heap ++ [z]).set heap.length x = heap ++ [x] := by
    intro z x
    rw [List.set_append_right _ _ (Nat.le_refl _), Nat.sub_self]
    rfl
  constructor
  · unfold EncFile.Write
    dsimp only
    repeat' split
    all_goals first
      | exact ⟨_, hset _ _⟩
      | exact ⟨_, rfl⟩
      | exact ⟨[], (List.append_nil heap).symm⟩
  · unfold EncFile.WriteAt
    dsimp only
    repeat' split
    all_goals first
      | exact ⟨_, hset _ _⟩
      | exact ⟨_, rfl⟩
      | exact ⟨[], (List.append_nil heap).symm⟩

/-- C10: non-atomic cursor update on `Read` failure.  When the backend
read succeeds and content encryption is active but the keystream
generation fails (cipher construction error, e.g. an invalid key
length), `Read` returns the error — the Go source returns count 0 — yet
the handle's cursor has already been advanced by the backend-read
length, so the returned count and the cursor movement disagree. -/
theorem EncFile_Read_cursor_advances_on_cipher_error
    (nc : List Nat → Option (List Nat → List Nat)) (f : EncFile)
    (heap : Heap) (pid : Nat) (key : List Nat) (meta : EncFileMeta)
    (data : List Nat)
    (h1 : f.checkIsFile = none)
    (h2 : f.key = some key)
    (h3 : f.encFileMeta = some meta)
    (h4 : nc key = none)
    (h5 : (bRead f.file (heap.getD pid []).length).1 = .ok data) :
    (EncFile.Read nc f heap pid).1 = .error FErr.cipherErr ∧
    (EncFile.Read nc f heap pid).2.1.filePos = f.filePos + data.length := by
  have hg : generateCtrEncryptBytes nc key meta.Iv f.filePos data.length = none := by
    simp [generateCtrEncryptBytes, h4]
  simp only [EncFile.Read, h1]
  simp only [List.getD_eq_getElem?_getD] at h5
  simp [h5, h2, h3, hg]

theorem EncFile_Read_cursor_advances_on_cipher_error_witness :
    (EncFile.Read
        (fun k => if k.length = 16 then some (fun _ => List.replicate 16 0) else none)
        ⟨false, false, some ⟨['f'], [1]⟩, some [1, 2, 3], 0, ⟨false, 0, [5, 6]⟩⟩
        [[0, 0]] 0).1 = .error FErr.cipherErr ∧
    (EncFile.Read
        (fun k => if k.length = 16 then some (fun _ => List.replicate 16 0) else none)
        ⟨false, false, some ⟨['f'], [1]⟩, some [1, 2, 3], 0, ⟨false, 0, [5, 6]⟩⟩
        [[0, 0]] 0).2.1.filePos =
      (⟨false, false, some ⟨['f'], [1]⟩, some [1, 2, 3], 0, ⟨false, 0, [5, 6]⟩⟩ : EncFile).filePos +
        ([5, 6] : List Nat).length :=
  EncFile_Read_cursor_advances_on_cipher_error _ _ _ _ [1, 2, 3] ⟨['f'], [1]⟩ [5, 6]
    (by decide) (by decide) (by decide) rfl (by decide)
